import Mathlib

/-!
# Colour model and collector states of the garbage collector (`lgc.h`, `lstate.h`)

Shallow embedding of the macros of `src/src/lgc.h`.  A C `int` expression is a
natural number here; a C condition holds when its value is not `0`.  A
`lu_byte` (`unsigned char`) is a natural number below `256`; a store into a
`lu_byte` truncates with `% 256`.
-/

namespace Luar

/-! ## Data model (`lstate.h`, `lobject.h`) -/

/-- The fields of `global_State` (`lstate.h`) read by the macros of `lgc.h`:
`lu_byte currentwhite`, `lu_byte gcstate` and `l_mem GCdebt`. -/
structure global_State where
  currentwhite : Nat
  gcstate : Nat
  GCdebt : Int
  deriving DecidableEq

/-- The `marked` byte of the common header of a collectable object. -/
structure GCObject where
  marked : Nat
  deriving DecidableEq

/-- A `lu_byte` holds a value in `0..255`. -/
def isByte (x : Nat) : Prop := x < 256

instance (x : Nat) : Decidable (isByte x) := by
  unfold isByte; infer_instance

/-- The C cast `cast(lu_byte, e)` of a non-negative value: truncation to 8 bits. -/
def cast_byte (e : Nat) : Nat := e % 256

/-- The C operator `!e`: `1` when `e` is `0`, else `0`. -/
def c_not (e : Nat) : Nat := if e = 0 then 1 else 0

/-- The C operator `a <= b` on non-negative values: `1` or `0`. -/
def c_le (a b : Nat) : Nat := if a ≤ b then 1 else 0

/-- The C operator `a && b`: `1` when both are non-zero, else `0`. -/
def c_and (a b : Nat) : Nat := if a ≠ 0 ∧ b ≠ 0 then 1 else 0

/-! ## States of the collector (`lgc.h` lines 39-62) -/

def GCSpropagate : Nat := 0
def GCSatomic : Nat := 1
def GCSswpallgc : Nat := 2
def GCSswpfinobj : Nat := 3
def GCSswptobefnz : Nat := 4
def GCSswpend : Nat := 5
def GCScallfin : Nat := 6
def GCSpause : Nat := 7

/-- The macro `issweepphase(g)`:
`(GCSswpallgc <= (g)->gcstate && (g)->gcstate <= GCSswpend)`. -/
def issweepphase (g : global_State) : Nat :=
  c_and (c_le GCSswpallgc g.gcstate) (c_le g.gcstate GCSswpend)

/-- The macro `keepinvariant(g)`: `((g)->gcstate <= GCSatomic)`. -/
def keepinvariant (g : global_State) : Nat :=
  c_le g.gcstate GCSatomic

/-! ## Bit tricks (`lgc.h` lines 73-80) -/

/-- The macro `setbits(x,m)`: `((x) |= (m))`, the value stored in the byte `x`. -/
def setbits (x m : Nat) : Nat := cast_byte (x ||| m)

/-- The macro `testbits(x,m)`: `((x) & (m))`. -/
def testbits (x m : Nat) : Nat := x &&& m

/-- The macro `bitmask(b)`: `(1<<(b))`. -/
def bitmask (b : Nat) : Nat := 1 <<< b

/-- The macro `bit2mask(b1,b2)`: `(bitmask(b1) | bitmask(b2))`. -/
def bit2mask (b1 b2 : Nat) : Nat := bitmask b1 ||| bitmask b2

/-- The macro `l_setbit(x,b)`: `setbits(x, bitmask(b))`. -/
def l_setbit (x b : Nat) : Nat := setbits x (bitmask b)

/-- The macro `testbit(x,b)`: `testbits(x, bitmask(b))`. -/
def testbit (x b : Nat) : Nat := testbits x (bitmask b)

/-! ## Layout of `marked` and the colour macros (`lgc.h` lines 85-119) -/

def WHITE0BIT : Nat := 0
def WHITE1BIT : Nat := 1
def BLACKBIT : Nat := 2
def FINALIZEDBIT : Nat := 3

/-- The macro `WHITEBITS`: `bit2mask(WHITE0BIT, WHITE1BIT)`. -/
def WHITEBITS : Nat := bit2mask WHITE0BIT WHITE1BIT

/-- The macro `iswhite(x)`: `testbits((x)->marked, WHITEBITS)`. -/
def iswhite (x : GCObject) : Nat := testbits x.marked WHITEBITS

/-- The macro `isblack(x)`: `testbit((x)->marked, BLACKBIT)`. -/
def isblack (x : GCObject) : Nat := testbit x.marked BLACKBIT

/-- The macro `isgray(x)`:
`(!testbits((x)->marked, WHITEBITS | bitmask(BLACKBIT)))`. -/
def isgray (x : GCObject) : Nat :=
  c_not (testbits x.marked (WHITEBITS ||| bitmask BLACKBIT))

/-- The macro `tofinalize(x)`: `testbit((x)->marked, FINALIZEDBIT)`. -/
def tofinalize (x : GCObject) : Nat := testbit x.marked FINALIZEDBIT

/-- The macro `otherwhite(g)`: `((g)->currentwhite ^ WHITEBITS)`. -/
def otherwhite (g : global_State) : Nat := g.currentwhite ^^^ WHITEBITS

/-- The macro `isdeadm(ow,m)`: `(!(((m) ^ WHITEBITS) & (ow)))`. -/
def isdeadm (ow m : Nat) : Nat := c_not ((m ^^^ WHITEBITS) &&& ow)

/-- The macro `isdead(g,v)`: `isdeadm(otherwhite(g), (v)->marked)`. -/
def isdead (g : global_State) (v : GCObject) : Nat :=
  isdeadm (otherwhite g) v.marked

/-- The macro `gray2black(x)`: `l_setbit((x)->marked, BLACKBIT)`; the object
after the store. -/
def gray2black (x : GCObject) : GCObject :=
  { x with marked := l_setbit x.marked BLACKBIT }

/-- The macro `luaC_white(g)`: `cast(lu_byte, (g)->currentwhite & WHITEBITS)`. -/
def luaC_white (g : global_State) : Nat := cast_byte (g.currentwhite &&& WHITEBITS)

/-- The field `currentwhite` is exactly one white shade: the mask of
`WHITE0BIT` or the mask of `WHITE1BIT`. -/
def singleWhite (g : global_State) : Prop :=
  g.currentwhite = bitmask WHITE0BIT ∨ g.currentwhite = bitmask WHITE1BIT

/-- The store `g->currentwhite = w` into the global state. -/
def setcurrentwhite (g : global_State) (w : Nat) : global_State :=
  { g with currentwhite := w }

/-- Exactly one of the three colour predicates holds for the object `x`. -/
def exactlyOneColour (x : GCObject) : Prop :=
  (iswhite x ≠ 0 ∧ isgray x = 0 ∧ isblack x = 0) ∨
  (iswhite x = 0 ∧ isgray x ≠ 0 ∧ isblack x = 0) ∨
  (iswhite x = 0 ∧ isgray x = 0 ∧ isblack x ≠ 0)

/-- Modelled from the spec: the collector state together with the collectable
objects it manages (the object lists of `global_State`; the list code is not
under `src/`). Objects are addressed by their position. -/
structure Heap where
  g : global_State
  objs : List GCObject

/-- Modelled from the spec: the cycle-boundary shade flip of the atomic step
(its source file is not under `src/`), "replacing currentwhite by
otherwhite(g)"; it writes the global state only. -/
def flipwhite (h : Heap) : Heap :=
  { h with g := setcurrentwhite h.g (otherwhite h.g) }

/-! ## Remaining bit tricks and `changewhite` (`lgc.h` lines 73-79, 116) -/

/-- The C cast `cast(lu_byte, e)` of an `int` that may be negative. -/
def cast_byte_int (e : Int) : Nat := (e % 256).toNat

/-- The macro `resetbits(x,m)`: `((x) &= cast(lu_byte, ~(m)))`, the value
stored in the byte `x`; `~` is the complement of the `int` `m`. -/
def resetbits (x m : Nat) : Nat := cast_byte (x &&& cast_byte_int (~~~(m : Int)))

/-- The macro `resetbit(x,b)`: `resetbits(x, bitmask(b))`. -/
def resetbit (x b : Nat) : Nat := resetbits x (bitmask b)

/-- The macro `changewhite(x)`: `((x)->marked ^= WHITEBITS)`; the object after
the store. -/
def changewhite (x : GCObject) : GCObject :=
  { x with marked := cast_byte (x.marked ^^^ WHITEBITS) }

/-! ## Barriers (`lgc.h` lines 145-162) -/

/-- The thread state `lua_State` (`lstate.h`), of which the macros of `lgc.h`
read the field `l_G`. -/
structure lua_State where
  l_G : global_State
  deriving DecidableEq

/-- The macro `G(L)`: `(L->l_G)`. -/
def G (L : lua_State) : global_State := L.l_G

/-- A `TValue` as the barrier macros read it. The macros `iscollectable(v)`
and `gcvalue(v)` belong to `lobject.h`, which is not under `src/`; what they
return for the value is taken as given, in the two fields. -/
structure TValue where
  iscollectable : Nat
  gcvalue : GCObject
  deriving DecidableEq

/-- An `UpVal` as `luaC_upvalbarrier` reads it: the value `(uv)->v` points to,
and what the macro `upisopen(uv)` (of `lfunc.h`, not under `src/`) returns. -/
structure UpVal where
  v : TValue
  upisopen : Nat
  deriving DecidableEq

/-- The macro `obj2gco(v)` (`lstate.h`): the same object seen through its
common header. -/
def obj2gco (v : GCObject) : GCObject := v

/-- What a barrier macro evaluates to: a call of one of the barrier functions
declared at the end of `lgc.h`, with its arguments, or `cast_void(0)`. -/
inductive BarrierCall where
  | luaC_barrier_ (L : lua_State) (o v : GCObject)
  | luaC_barrierback_ (L : lua_State) (o : GCObject)
  | luaC_upvalbarrier_ (L : lua_State) (uv : UpVal)
  | cast_void0
  deriving DecidableEq

/-- The macro `luaC_barrier(L,p,v)`:
`(iscollectable(v) && isblack(p) && iswhite(gcvalue(v))) ?
luaC_barrier_(L,obj2gco(p),gcvalue(v)) : cast_void(0)`. -/
def luaC_barrier (L : lua_State) (p : GCObject) (v : TValue) : BarrierCall :=
  if c_and (c_and v.iscollectable (isblack p)) (iswhite v.gcvalue) ≠ 0 then
    BarrierCall.luaC_barrier_ L (obj2gco p) v.gcvalue
  else BarrierCall.cast_void0

/-- The macro `luaC_barrierback(L,p,v)`:
`(iscollectable(v) && isblack(p) && iswhite(gcvalue(v))) ?
luaC_barrierback_(L,p) : cast_void(0)`. -/
def luaC_barrierback (L : lua_State) (p : GCObject) (v : TValue) : BarrierCall :=
  if c_and (c_and v.iscollectable (isblack p)) (iswhite v.gcvalue) ≠ 0 then
    BarrierCall.luaC_barrierback_ L p
  else BarrierCall.cast_void0

/-- The macro `luaC_objbarrier(L,p,o)`:
`(isblack(p) && iswhite(o)) ? luaC_barrier_(L,obj2gco(p),obj2gco(o)) :
cast_void(0)`. -/
def luaC_objbarrier (L : lua_State) (p o : GCObject) : BarrierCall :=
  if c_and (isblack p) (iswhite o) ≠ 0 then
    BarrierCall.luaC_barrier_ L (obj2gco p) (obj2gco o)
  else BarrierCall.cast_void0

/-- The macro `luaC_upvalbarrier(L,uv)`:
`(iscollectable((uv)->v) && !upisopen(uv)) ? luaC_upvalbarrier_(L,uv) :
cast_void(0)`. -/
def luaC_upvalbarrier (L : lua_State) (uv : UpVal) : BarrierCall :=
  if c_and uv.v.iscollectable (c_not uv.upisopen) ≠ 0 then
    BarrierCall.luaC_upvalbarrier_ L uv
  else BarrierCall.cast_void0

/-- The condition under which the spec triggers the forward and the backward
barrier: `v` is collectable, `p` is black and the object of `v` is white. -/
def blackToWhite (p : GCObject) (v : TValue) : Prop :=
  v.iscollectable ≠ 0 ∧ isblack p ≠ 0 ∧ iswhite v.gcvalue ≠ 0

/-! ## Collection step on positive debt (`lgc.h` lines 133-139) -/

/-- The macro `luaC_condGC(L,pre,pos)`:
`{ if (G(L)->GCdebt > 0) { pre; luaC_step(L); pos;}; condchangemem(L,pre,pos); }`.
A statement is a transformer of the program state `σ`, in which `L` finds the
thread state. The function `luaC_step` and the test hook `condchangemem` are
not defined under `src/` and are parameters. -/
def luaC_condGC {σ : Type} (luaC_step : σ → σ)
    (condchangemem : (σ → σ) → (σ → σ) → σ → σ)
    (L : σ → lua_State) (pre pos : σ → σ) (s : σ) : σ :=
  condchangemem pre pos
    (if 0 < (G (L s)).GCdebt then pos (luaC_step (pre s)) else s)

/-- The macro `luaC_checkGC(L)`: `luaC_condGC(L,(void)0,(void)0)`. -/
def luaC_checkGC {σ : Type} (luaC_step : σ → σ)
    (condchangemem : (σ → σ) → (σ → σ) → σ → σ)
    (L : σ → lua_State) (s : σ) : σ :=
  luaC_condGC luaC_step condchangemem L id id s

/-- The three statements `luaC_condGC` may run. -/
inductive GCEvent where
  | pre
  | luaC_step
  | pos
  deriving DecidableEq

/-- A program state that records, next to the thread state, the statements
run so far. -/
structure Traced where
  L : lua_State
  log : List GCEvent
  deriving DecidableEq

/-- The statement that only records the event `e`. -/
def Traced.record (e : GCEvent) (s : Traced) : Traced :=
  { s with log := s.log ++ [e] }

/-! ## Call status bits (`lstate.h` lines 98-113) -/

/-- The C operator `a & b` on two `int`s in two's complement. -/
def c_band : Int → Int → Int
  | Int.ofNat m, Int.ofNat n => Int.ofNat (m &&& n)
  | Int.ofNat m, Int.negSucc n => Int.ofNat (m ^^^ (m &&& n))
  | Int.negSucc m, Int.ofNat n => Int.ofNat (n ^^^ (n &&& m))
  | Int.negSucc m, Int.negSucc n => Int.negSucc (m ||| n)

/-- The C operator `a | b` on two `int`s in two's complement. -/
def c_bor : Int → Int → Int
  | Int.ofNat m, Int.ofNat n => Int.ofNat (m ||| n)
  | Int.ofNat m, Int.negSucc n => Int.negSucc (n ^^^ (n &&& m))
  | Int.negSucc m, Int.ofNat n => Int.negSucc (m ^^^ (m &&& n))
  | Int.negSucc m, Int.negSucc n => Int.negSucc (m &&& n)

/-- The store of an `int` into an `unsigned short` (`callstatus`): truncation
to 16 bits. -/
def cast_ushort (e : Int) : Nat := (e % 65536).toNat

/-- An `unsigned short` holds a value in `0..65535`. -/
def isUShort (x : Nat) : Prop := x < 65536

instance (x : Nat) : Decidable (isUShort x) := by
  unfold isUShort; infer_instance

def CIST_OAH : Nat := 1 <<< 0
def CIST_LUA : Nat := 1 <<< 1
def CIST_HOOKED : Nat := 1 <<< 2
def CIST_FRESH : Nat := 1 <<< 3
def CIST_YPCALL : Nat := 1 <<< 4
def CIST_TAIL : Nat := 1 <<< 5
def CIST_HOOKYIELD : Nat := 1 <<< 6
def CIST_LEQ : Nat := 1 <<< 7
def CIST_FIN : Nat := 1 <<< 8

/-- The macro `setoah(st,v)`: `((st) = ((st) & ~CIST_OAH) | (v))`, the value
stored in the `unsigned short` `st`. -/
def setoah (st v : Nat) : Nat :=
  cast_ushort (c_bor (c_band (st : Int) (~~~(CIST_OAH : Int))) (v : Int))

/-- The macro `getoah(st)`: `((st) & CIST_OAH)`. -/
def getoah (st : Nat) : Nat := st &&& CIST_OAH

/-! ## The marked bytes an object carries -/

/-- Modelled from the spec: marking "colors it gray" a white object (spec 4.2);
the white bits of `marked` are cleared with `resetbits`. The marking code is
not under `src/`. -/
def white2gray (x : GCObject) : GCObject :=
  { x with marked := resetbits x.marked WHITEBITS }

/-- Modelled from the spec: the backward barrier "re-grays the holder" (spec
4.6); `BLACKBIT` is cleared with `resetbit`. The barrier code is not under
`src/`. -/
def black2gray (x : GCObject) : GCObject :=
  { x with marked := resetbit x.marked BLACKBIT }

/-- Modelled from the spec: sweep resets the colour of a survivor "to the
baseline" (spec 4.4): the colour bits are cleared and the current white
`luaC_white(g)` is set, the other bits are kept. The sweep code is not under
`src/`. -/
def makewhite (g : global_State) (x : GCObject) : GCObject :=
  { x with marked :=
      setbits (resetbits x.marked (WHITEBITS ||| bitmask BLACKBIT)) (luaC_white g) }

/-- Modelled from the spec: the marked bytes a collectable object can carry.
A new object is coloured `luaC_white(g)` (spec 6); marking turns a white
object gray and a gray object black with `gray2black` (spec 4.2); the backward
barrier turns a black object gray (spec 4.6); sweep repaints an object in the
current white (spec 4.4); `changewhite` swaps the shade of a white object; the
finalization mark is set and cleared with `l_setbit` / `resetbit`. The code
that applies these steps is not under `src/`. -/
inductive carried : GCObject → Prop where
  | newobj (g : global_State) : carried ⟨luaC_white g⟩
  | white2gray (x : GCObject) : carried x → iswhite x ≠ 0 → carried (white2gray x)
  | gray2black (x : GCObject) : carried x → isgray x ≠ 0 → carried (gray2black x)
  | black2gray (x : GCObject) : carried x → isblack x ≠ 0 → carried (black2gray x)
  | makewhite (g : global_State) (x : GCObject) : carried x → carried (makewhite g x)
  | changewhite (x : GCObject) : carried x → iswhite x ≠ 0 → carried (changewhite x)
  | setfinalized (x : GCObject) : carried x → carried ⟨l_setbit x.marked FINALIZEDBIT⟩
  | resetfinalized (x : GCObject) : carried x → carried ⟨resetbit x.marked FINALIZEDBIT⟩

/-! ## Dead objects and the current white (`lgc.h` lines 108-119) -/

set_option maxRecDepth 100000 in
/-- C1: when `currentwhite` is exactly one white shade, `isdead(g, v)` holds
if and only if the marked byte of `v` has the non-current white bit
(`otherwhite(g)`) set; an object whose white bits are exactly the current
white, a gray object and a black object without a white bit are not dead. -/
theorem isdead_iff_otherwhite_bit (g : global_State) (v : GCObject)
    (hg : singleWhite g) (hv : isByte v.marked) :
    (isdead g v ≠ 0 ↔ testbits v.marked (otherwhite g) ≠ 0) ∧
    (testbits v.marked WHITEBITS = g.currentwhite → isdead g v = 0) ∧
    (isgray v ≠ 0 → isdead g v = 0) ∧
    (isblack v ≠ 0 → iswhite v = 0 → isdead g v = 0) := by
  obtain ⟨cw, st, debt⟩ := g
  obtain ⟨m⟩ := v
  simp only [singleWhite, isByte] at hg hv
  rcases hg with h | h <;> subst h <;>
    simp only [isdead, otherwhite, isgray, isblack, iswhite] <;>
    revert m <;> decide

/-- Witness of C1 at `currentwhite = 1` and an object of the other white
(`marked = 2`), which is dead. -/
theorem isdead_iff_otherwhite_bit_witness :
    singleWhite ⟨1, 0, 0⟩ ∧ isByte 2 ∧
    (isdead ⟨1, 0, 0⟩ ⟨2⟩ ≠ 0 ↔ testbits 2 (otherwhite ⟨1, 0, 0⟩) ≠ 0) ∧
    isdead ⟨1, 0, 0⟩ ⟨2⟩ = 1 :=
  ⟨Or.inl rfl, by decide,
    (isdead_iff_otherwhite_bit ⟨1, 0, 0⟩ ⟨2⟩ (Or.inl rfl) (by decide)).1, by decide⟩

/-- C2: when `currentwhite` is exactly one white shade, a new object whose
marked byte is `luaC_white(g)` is white, not black, not gray, not marked for
finalization and not dead. -/
theorem new_object_is_current_white (g : global_State) (v : GCObject)
    (hg : singleWhite g) (hv : v.marked = luaC_white g) :
    iswhite v ≠ 0 ∧ isblack v = 0 ∧ isgray v = 0 ∧ tofinalize v = 0 ∧
    isdead g v = 0 := by
  obtain ⟨cw, st, debt⟩ := g
  obtain ⟨m⟩ := v
  simp only [singleWhite] at hg
  simp only [luaC_white] at hv
  subst hv
  rcases hg with h | h <;> subst h <;>
    simp only [isdead, otherwhite, isgray, isblack, iswhite, tofinalize] <;>
    decide

/-- Witness of C2 at `currentwhite = 2`: the new object has `marked = 2`. -/
theorem new_object_is_current_white_witness :
    singleWhite ⟨2, 7, 0⟩ ∧ luaC_white ⟨2, 7, 0⟩ = 2 ∧
    iswhite ⟨2⟩ ≠ 0 ∧ isblack ⟨2⟩ = 0 ∧ isgray ⟨2⟩ = 0 ∧ tofinalize ⟨2⟩ = 0 ∧
    isdead ⟨2, 7, 0⟩ ⟨2⟩ = 0 :=
  ⟨Or.inr rfl, by decide,
    new_object_is_current_white ⟨2, 7, 0⟩ ⟨2⟩ (Or.inr rfl) (by decide)⟩

set_option maxRecDepth 100000 in
/-- C3: shade flip. When `currentwhite` is exactly one white shade and `g'` is
`g` with `currentwhite` replaced by `otherwhite(g)`, then `currentwhite` of
`g'` is the other single shade and differs from the old one, every object
whose white bits are exactly the old current white is not dead in `g` and is
dead in `g'`, and every object coloured `luaC_white(g')` is not dead in `g'`. -/
theorem shade_flip_kills_old_white (g : global_State) (hg : singleWhite g) :
    singleWhite (setcurrentwhite g (otherwhite g)) ∧
    (g.currentwhite = bitmask WHITE0BIT →
      (setcurrentwhite g (otherwhite g)).currentwhite = bitmask WHITE1BIT) ∧
    (g.currentwhite = bitmask WHITE1BIT →
      (setcurrentwhite g (otherwhite g)).currentwhite = bitmask WHITE0BIT) ∧
    (setcurrentwhite g (otherwhite g)).currentwhite ≠ g.currentwhite ∧
    (∀ v : GCObject, isByte v.marked →
      testbits v.marked WHITEBITS = g.currentwhite →
      isdead g v = 0 ∧ isdead (setcurrentwhite g (otherwhite g)) v ≠ 0) ∧
    (∀ v : GCObject, isByte v.marked →
      testbits v.marked WHITEBITS = luaC_white (setcurrentwhite g (otherwhite g)) →
      isdead (setcurrentwhite g (otherwhite g)) v = 0) ∧
    (∀ v : GCObject, v.marked = luaC_white (setcurrentwhite g (otherwhite g)) →
      isdead (setcurrentwhite g (otherwhite g)) v = 0) := by
  obtain ⟨cw, st, debt⟩ := g
  simp only [singleWhite] at hg
  rcases hg with h | h <;> subst h <;>
    simp only [singleWhite, setcurrentwhite, otherwhite, isdead, luaC_white, isByte] <;>
    refine ⟨by decide, by decide, by decide, by decide, ?_, ?_, ?_⟩
  all_goals first
    | (rintro ⟨m⟩; revert m; simp only; decide)
    | (rintro ⟨m⟩ h; simp only at h; subst h; decide)

/-- Witness of C3 at `currentwhite = 1`: the flipped state has
`currentwhite = 2`, where the old white `marked = 1` is dead. -/
theorem shade_flip_kills_old_white_witness :
    singleWhite ⟨1, 1, 0⟩ ∧
    (setcurrentwhite ⟨1, 1, 0⟩ (otherwhite ⟨1, 1, 0⟩)).currentwhite = 2 ∧
    isdead ⟨1, 1, 0⟩ ⟨1⟩ = 0 ∧
    isdead (setcurrentwhite ⟨1, 1, 0⟩ (otherwhite ⟨1, 1, 0⟩)) ⟨1⟩ ≠ 0 :=
  ⟨Or.inl rfl,
    (shade_flip_kills_old_white ⟨1, 1, 0⟩ (Or.inl rfl)).2.1 rfl,
    ((shade_flip_kills_old_white ⟨1, 1, 0⟩ (Or.inl rfl)).2.2.2.2.1 ⟨1⟩
      (by decide) (by decide)).1,
    ((shade_flip_kills_old_white ⟨1, 1, 0⟩ (Or.inl rfl)).2.2.2.2.1 ⟨1⟩
      (by decide) (by decide)).2⟩

/-! ## The cycle-boundary shade flip and the colours -/

/-- C4, counterexample: in the heap with `currentwhite = 1` and one black
object (`marked = 4`), the object is black before the flip and the object at
the same position after the flip is not white. -/
theorem flipwhite_black_not_white :
    ¬ (∀ (i : Nat) (x y : GCObject),
        (Heap.mk ⟨1, GCSatomic, 0⟩ [⟨4⟩]).objs[i]? = some x → isblack x ≠ 0 →
        (flipwhite (Heap.mk ⟨1, GCSatomic, 0⟩ [⟨4⟩])).objs[i]? = some y →
        iswhite y ≠ 0) := by
  intro H
  exact absurd (H 0 ⟨4⟩ ⟨4⟩ rfl (by decide) rfl) (by decide)

set_option maxRecDepth 100000 in
/-- C4, amended: the shade flip changes no object's marked byte; an object
that was black before the flip is still black after it and is white after it
exactly when it was white before; a black object without a white bit is not
dead in the flipped state when `currentwhite` was a single shade. -/
theorem flipwhite_keeps_marked (h : Heap) :
    (flipwhite h).objs = h.objs ∧
    ∀ (i : Nat) (x y : GCObject),
      h.objs[i]? = some x → (flipwhite h).objs[i]? = some y →
      y.marked = x.marked ∧
      (isblack x ≠ 0 → isblack y ≠ 0 ∧ iswhite y = iswhite x) ∧
      (isblack x ≠ 0 → iswhite x = 0 → singleWhite h.g → isByte x.marked →
        isdead (flipwhite h).g y = 0) := by
  refine ⟨rfl, ?_⟩
  intro i x y hx hy
  have hobjs : (flipwhite h).objs = h.objs := rfl
  rw [hobjs, hx] at hy
  cases hy
  refine ⟨rfl, fun hb => ⟨hb, rfl⟩, ?_⟩
  clear hx hobjs
  obtain ⟨⟨cw, st, debt⟩, objs⟩ := h
  obtain ⟨m⟩ := x
  intro hb hw hg hm
  simp only [singleWhite] at hg
  simp only [isByte] at hm
  revert hb hw
  rcases hg with e | e <;> subst e <;>
    simp only [flipwhite, setcurrentwhite, otherwhite, isdead, isblack, iswhite] <;>
    revert m <;> decide

set_option maxRecDepth 100000 in
/-- C5: for every marked byte, `isgray(x)` holds if and only if neither
`iswhite(x)` nor `isblack(x)` holds; hence at least one of the three colour
predicates holds for every object. -/
theorem isgray_iff_not_white_not_black (x : GCObject) (hx : isByte x.marked) :
    (isgray x ≠ 0 ↔ (iswhite x = 0 ∧ isblack x = 0)) ∧
    (iswhite x ≠ 0 ∨ isgray x ≠ 0 ∨ isblack x ≠ 0) := by
  obtain ⟨m⟩ := x
  simp only [isByte] at hx
  simp only [isgray, isblack, iswhite]
  revert m
  decide

/-- Witness of C5 at the finalization-marked gray byte `marked = 8`. -/
theorem isgray_iff_not_white_not_black_witness :
    isByte 8 ∧ (isgray ⟨8⟩ ≠ 0 ↔ (iswhite ⟨8⟩ = 0 ∧ isblack ⟨8⟩ = 0)) ∧
    (iswhite ⟨8⟩ ≠ 0 ∨ isgray ⟨8⟩ ≠ 0 ∨ isblack ⟨8⟩ ≠ 0) :=
  ⟨by decide, isgray_iff_not_white_not_black ⟨8⟩ (by decide)⟩

set_option maxRecDepth 100000 in
/-- For every marked byte at least one colour predicate holds and gray
excludes white and black; exactly one of the three holds if and only if the
byte does not carry a white bit together with `BLACKBIT`. -/
theorem exactlyOneColour_iff (x : GCObject) (hx : isByte x.marked) :
    (exactlyOneColour x ↔ ¬ (iswhite x ≠ 0 ∧ isblack x ≠ 0)) ∧
    (isgray x ≠ 0 → iswhite x = 0 ∧ isblack x = 0) ∧
    (iswhite x ≠ 0 ∨ isgray x ≠ 0 ∨ isblack x ≠ 0) := by
  obtain ⟨m⟩ := x
  simp only [isByte] at hx
  simp only [exactlyOneColour, isgray, isblack, iswhite]
  revert m
  decide

set_option maxRecDepth 100000 in
/-- A new object's byte `w` (a value of `luaC_white`, below `4`) is a byte
without `BLACKBIT`, and so is a byte repainted with it. -/
theorem colour_new_byte :
    ∀ w, w < 4 →
      (w < 256 ∧ ¬ (iswhite ⟨w⟩ ≠ 0 ∧ isblack ⟨w⟩ ≠ 0)) ∧
      ∀ m, m < 256 →
        (setbits (resetbits m (WHITEBITS ||| bitmask BLACKBIT)) w < 256 ∧
          ¬ (iswhite ⟨setbits (resetbits m (WHITEBITS ||| bitmask BLACKBIT)) w⟩ ≠ 0 ∧
            isblack ⟨setbits (resetbits m (WHITEBITS ||| bitmask BLACKBIT)) w⟩ ≠ 0)) := by
  decide

set_option maxRecDepth 100000 in
/-- The steps to gray keep a byte free of a white bit together with
`BLACKBIT`. -/
theorem gray_steps_byte :
    ∀ m, m < 256 → ¬ (iswhite ⟨m⟩ ≠ 0 ∧ isblack ⟨m⟩ ≠ 0) →
      ((white2gray ⟨m⟩).marked < 256 ∧
        ¬ (iswhite (white2gray ⟨m⟩) ≠ 0 ∧ isblack (white2gray ⟨m⟩) ≠ 0)) ∧
      ((black2gray ⟨m⟩).marked < 256 ∧
        ¬ (iswhite (black2gray ⟨m⟩) ≠ 0 ∧ isblack (black2gray ⟨m⟩) ≠ 0)) := by
  decide

set_option maxRecDepth 100000 in
/-- On a gray byte `gray2black` gives a byte that is not white. -/
theorem gray2black_step_byte :
    ∀ m, m < 256 → isgray ⟨m⟩ ≠ 0 →
      (gray2black ⟨m⟩).marked < 256 ∧
      ¬ (iswhite (gray2black ⟨m⟩) ≠ 0 ∧ isblack (gray2black ⟨m⟩) ≠ 0) := by
  decide

set_option maxRecDepth 100000 in
/-- On a white byte that is not black `changewhite` gives a byte that is not
black. -/
theorem changewhite_step_byte :
    ∀ m, m < 256 → ¬ (iswhite ⟨m⟩ ≠ 0 ∧ isblack ⟨m⟩ ≠ 0) → iswhite ⟨m⟩ ≠ 0 →
      (changewhite ⟨m⟩).marked < 256 ∧
      ¬ (iswhite (changewhite ⟨m⟩) ≠ 0 ∧ isblack (changewhite ⟨m⟩) ≠ 0) := by
  decide

set_option maxRecDepth 100000 in
/-- Setting and clearing `FINALIZEDBIT` keep a byte free of a white bit
together with `BLACKBIT`. -/
theorem finalized_steps_byte :
    ∀ m, m < 256 → ¬ (iswhite ⟨m⟩ ≠ 0 ∧ isblack ⟨m⟩ ≠ 0) →
      (l_setbit m FINALIZEDBIT < 256 ∧
        ¬ (iswhite ⟨l_setbit m FINALIZEDBIT⟩ ≠ 0 ∧
          isblack ⟨l_setbit m FINALIZEDBIT⟩ ≠ 0)) ∧
      (resetbit m FINALIZEDBIT < 256 ∧
        ¬ (iswhite ⟨resetbit m FINALIZEDBIT⟩ ≠ 0 ∧
          isblack ⟨resetbit m FINALIZEDBIT⟩ ≠ 0)) := by
  decide

/-- The value of `luaC_white(g)` is below `4`, whatever `currentwhite` is. -/
theorem luaC_white_lt (g : global_State) : luaC_white g < 4 := by
  unfold luaC_white cast_byte
  have h : g.currentwhite &&& WHITEBITS ≤ 3 := Nat.and_le_right
  omega

/-- A byte an object carries is a byte and never has a white bit together
with `BLACKBIT`. -/
theorem carried_not_white_and_black (x : GCObject) (h : carried x) :
    isByte x.marked ∧ ¬ (iswhite x ≠ 0 ∧ isblack x ≠ 0) := by
  induction h with
  | newobj g => exact (colour_new_byte _ (luaC_white_lt g)).1
  | white2gray x _ _ ih => exact (gray_steps_byte x.marked ih.1 ih.2).1
  | gray2black x _ hg ih => exact gray2black_step_byte x.marked ih.1 hg
  | black2gray x _ _ ih => exact (gray_steps_byte x.marked ih.1 ih.2).2
  | makewhite g x _ ih =>
    exact (colour_new_byte _ (luaC_white_lt g)).2 x.marked ih.1
  | changewhite x _ hw ih => exact changewhite_step_byte x.marked ih.1 ih.2 hw
  | setfinalized x _ ih => exact (finalized_steps_byte x.marked ih.1 ih.2).1
  | resetfinalized x _ ih => exact (finalized_steps_byte x.marked ih.1 ih.2).2

/-- C6: every collectable object has exactly one of the three colours: for
every marked byte an object can carry (the byte of a new object and every byte
the colour and finalization steps make of it), exactly one of `iswhite(x)`,
`isgray(x)` and `isblack(x)` holds; in particular no object is white and black
at once. -/
theorem carried_exactlyOneColour (x : GCObject) (h : carried x) :
    isByte x.marked ∧ exactlyOneColour x ∧ ¬ (iswhite x ≠ 0 ∧ isblack x ≠ 0) := by
  obtain ⟨hb, hc⟩ := carried_not_white_and_black x h
  exact ⟨hb, (exactlyOneColour_iff x hb).1.2 hc, hc⟩

/-- Witness of C6: a new object in the state `currentwhite = 1` (`marked = 1`)
is marked gray (`0`), then black (`4`), then marked for finalization (`12`);
the byte `12` has exactly one colour, black. -/
theorem carried_exactlyOneColour_witness :
    (⟨l_setbit (gray2black (white2gray ⟨luaC_white ⟨1, 0, 0⟩⟩)).marked FINALIZEDBIT⟩ :
      GCObject) = ⟨12⟩ ∧
    carried ⟨l_setbit (gray2black (white2gray ⟨luaC_white ⟨1, 0, 0⟩⟩)).marked FINALIZEDBIT⟩ ∧
    exactlyOneColour
      ⟨l_setbit (gray2black (white2gray ⟨luaC_white ⟨1, 0, 0⟩⟩)).marked FINALIZEDBIT⟩ ∧
    isblack ⟨12⟩ ≠ 0 ∧ iswhite ⟨12⟩ = 0 ∧ isgray ⟨12⟩ = 0 :=
  have hc : carried
      ⟨l_setbit (gray2black (white2gray ⟨luaC_white ⟨1, 0, 0⟩⟩)).marked FINALIZEDBIT⟩ :=
    carried.setfinalized _
      (carried.gray2black _
        (carried.white2gray _ (carried.newobj ⟨1, 0, 0⟩) (by decide)) (by decide))
  ⟨by decide, hc, (carried_exactlyOneColour _ hc).2.1, by decide, by decide, by decide⟩

/-! ## `gray2black` -/

set_option maxRecDepth 100000 in
/-- C7: for every gray object `x`, after `gray2black(x)` the object is black,
not gray and not white; every bit of `marked` other than `BLACKBIT`
(`FINALIZEDBIT` included) is unchanged and `marked` is still a byte; on an
object that is already black `gray2black` changes nothing. -/
theorem gray2black_spec (x : GCObject) (hx : isByte x.marked) :
    (isgray x ≠ 0 →
      isblack (gray2black x) ≠ 0 ∧ isgray (gray2black x) = 0 ∧
      iswhite (gray2black x) = 0) ∧
    (∀ b : Nat, b < 8 → b ≠ BLACKBIT →
      testbit (gray2black x).marked b = testbit x.marked b) ∧
    tofinalize (gray2black x) = tofinalize x ∧
    isByte (gray2black x).marked ∧
    (isblack x ≠ 0 → gray2black x = x ∧ isgray (gray2black x) = 0 ∧
      iswhite (gray2black x) = iswhite x) := by
  obtain ⟨m⟩ := x
  simp only [isByte] at hx
  simp only [gray2black, isgray, isblack, iswhite, tofinalize, isByte,
    GCObject.mk.injEq]
  revert m
  decide

/-- Witness of C7 at the gray, finalization-marked byte `marked = 8`, which
becomes `12`. -/
theorem gray2black_spec_witness :
    isByte 8 ∧ isgray ⟨8⟩ ≠ 0 ∧ gray2black ⟨8⟩ = ⟨12⟩ ∧
    isblack (gray2black ⟨8⟩) ≠ 0 ∧ isgray (gray2black ⟨8⟩) = 0 ∧
    iswhite (gray2black ⟨8⟩) = 0 :=
  ⟨by decide, by decide, by decide,
    (gray2black_spec ⟨8⟩ (by decide)).1 (by decide)⟩

/-! ## Collector states: `keepinvariant` and `issweepphase` -/

/-- C8: for every value of `gcstate`, `keepinvariant(g)` holds if and only if
`gcstate` is `GCSpropagate` or `GCSatomic`; it is false in the four sweep
states, in `GCScallfin` and in `GCSpause`. -/
theorem keepinvariant_iff_propagate_or_atomic (g : global_State) :
    (keepinvariant g ≠ 0 ↔ (g.gcstate = GCSpropagate ∨ g.gcstate = GCSatomic)) ∧
    (g.gcstate ∈ [GCSswpallgc, GCSswpfinobj, GCSswptobefnz, GCSswpend,
        GCScallfin, GCSpause] → keepinvariant g = 0) := by
  obtain ⟨cw, st, debt⟩ := g
  simp only [keepinvariant, c_le, GCSpropagate, GCSatomic, GCSswpallgc,
    GCSswpfinobj, GCSswptobefnz, GCSswpend, GCScallfin, GCSpause,
    List.mem_cons, List.mem_singleton, List.not_mem_nil, or_false]
  constructor
  · split_ifs with h
    · simp; omega
    · simp; omega
  · intro h
    rw [if_neg (by omega)]

/-- C9, counterexample: in `GCScallfin` the collector is not in a sweep state
and `keepinvariant` is false all the same. -/
theorem callfin_not_sweep_not_invariant :
    ¬ (issweepphase ⟨1, GCScallfin, 0⟩ = 0 → keepinvariant ⟨1, GCScallfin, 0⟩ ≠ 0) := by
  decide

/-- C9, amended: for each of the eight collector states other than
`GCScallfin` and `GCSpause`, if `issweepphase(g)` is false then
`keepinvariant(g)` is true; in `GCScallfin` and `GCSpause` both are false; and
`keepinvariant(g)` is never true in a sweep state. -/
theorem keepinvariant_of_not_sweep (g : global_State) (hs : g.gcstate ≤ GCSpause) :
    (g.gcstate ≠ GCScallfin → g.gcstate ≠ GCSpause → issweepphase g = 0 →
      keepinvariant g ≠ 0) ∧
    (g.gcstate = GCScallfin ∨ g.gcstate = GCSpause →
      issweepphase g = 0 ∧ keepinvariant g = 0) ∧
    (issweepphase g ≠ 0 → keepinvariant g = 0) := by
  obtain ⟨cw, st, debt⟩ := g
  simp only at hs
  simp only [keepinvariant, issweepphase]
  revert st
  decide

/-- Witness of C9 (amended) in the state `GCSpropagate`. -/
theorem keepinvariant_of_not_sweep_witness :
    GCSpropagate ≤ GCSpause ∧ issweepphase ⟨1, GCSpropagate, 0⟩ = 0 ∧
    keepinvariant ⟨1, GCSpropagate, 0⟩ ≠ 0 :=
  ⟨by decide, by decide,
    (keepinvariant_of_not_sweep ⟨1, GCSpropagate, 0⟩ (by decide)).1
      (by decide) (by decide) (by decide)⟩

/-- C10: along the documented cycle Propagate, Atomic, SweepAll,
SweepFinalizable, SweepToBeFinalized, SweepEnd, CallFinalizers, Paused the
state code goes up by one at each transition, from `0` to `7`, and the
successor of Paused modulo the eight codes is Propagate; for every value of
`gcstate`, `issweepphase(g)` holds exactly in the four sweep states. -/
theorem gcstate_codes_cycle :
    [GCSpropagate, GCSatomic, GCSswpallgc, GCSswpfinobj, GCSswptobefnz,
      GCSswpend, GCScallfin, GCSpause] = List.range 8 ∧
    GCSatomic = GCSpropagate + 1 ∧ GCSswpallgc = GCSatomic + 1 ∧
    GCSswpfinobj = GCSswpallgc + 1 ∧ GCSswptobefnz = GCSswpfinobj + 1 ∧
    GCSswpend = GCSswptobefnz + 1 ∧ GCScallfin = GCSswpend + 1 ∧
    GCSpause = GCScallfin + 1 ∧ (GCSpause + 1) % 8 = GCSpropagate ∧
    ∀ g : global_State,
      (issweepphase g ≠ 0 ↔
        g.gcstate ∈ [GCSswpallgc, GCSswpfinobj, GCSswptobefnz, GCSswpend]) := by
  refine ⟨by decide, by decide, by decide, by decide, by decide, by decide,
    by decide, by decide, by decide, ?_⟩
  rintro ⟨cw, st, debt⟩
  simp only [issweepphase, c_and, c_le, GCSswpallgc, GCSswpfinobj,
    GCSswptobefnz, GCSswpend, List.mem_cons, List.mem_singleton,
    List.not_mem_nil, or_false]
  by_cases h1 : 2 ≤ st <;> by_cases h2 : st ≤ 5 <;> simp [h1, h2] <;> omega

/-! ## Barrier macros -/

/-- C11: `luaC_barrier(L,p,v)` invokes `luaC_barrier_` on `p` and the object of
`v`, and `luaC_barrierback(L,p,v)` invokes `luaC_barrierback_` on `p`, if and
only if `v` is collectable, `p` is black and the object of `v` is white;
`luaC_objbarrier(L,p,o)` invokes `luaC_barrier_` if and only if `p` is black
and `o` is white; in every other case the macro is `cast_void(0)`, so a
skipped barrier means the store makes no black-to-white edge. -/
theorem barrier_macros_trigger (L : lua_State) (p o : GCObject) (v : TValue) :
    (luaC_barrier L p v = BarrierCall.luaC_barrier_ L (obj2gco p) v.gcvalue ↔
      blackToWhite p v) ∧
    (luaC_barrierback L p v = BarrierCall.luaC_barrierback_ L p ↔
      blackToWhite p v) ∧
    (luaC_objbarrier L p o = BarrierCall.luaC_barrier_ L (obj2gco p) (obj2gco o) ↔
      (isblack p ≠ 0 ∧ iswhite o ≠ 0)) ∧
    (luaC_barrier L p v = BarrierCall.cast_void0 ↔ ¬ blackToWhite p v) ∧
    (luaC_barrierback L p v = BarrierCall.cast_void0 ↔ ¬ blackToWhite p v) ∧
    (luaC_objbarrier L p o = BarrierCall.cast_void0 ↔
      ¬ (isblack p ≠ 0 ∧ iswhite o ≠ 0)) := by
  unfold luaC_barrier luaC_barrierback luaC_objbarrier blackToWhite c_and
  by_cases h1 : v.iscollectable = 0 <;> by_cases h2 : isblack p = 0 <;>
    by_cases h3 : iswhite v.gcvalue = 0 <;> by_cases h4 : iswhite o = 0 <;>
    simp [h1, h2, h3, h4]

/-- C12, counterexample: in the sweep state `GCSswpallgc`, where
`keepinvariant(g)` is false, the four macros still invoke their barrier
function for a black holder and a white collectable value (a closed upvalue
for `luaC_upvalbarrier`). -/
theorem barrier_invoked_in_sweep :
    keepinvariant (G ⟨⟨2, GCSswpallgc, 0⟩⟩) = 0 ∧
    luaC_barrier ⟨⟨2, GCSswpallgc, 0⟩⟩ ⟨4⟩ ⟨1, ⟨2⟩⟩ =
      BarrierCall.luaC_barrier_ ⟨⟨2, GCSswpallgc, 0⟩⟩ ⟨4⟩ ⟨2⟩ ∧
    luaC_barrierback ⟨⟨2, GCSswpallgc, 0⟩⟩ ⟨4⟩ ⟨1, ⟨2⟩⟩ =
      BarrierCall.luaC_barrierback_ ⟨⟨2, GCSswpallgc, 0⟩⟩ ⟨4⟩ ∧
    luaC_objbarrier ⟨⟨2, GCSswpallgc, 0⟩⟩ ⟨4⟩ ⟨2⟩ =
      BarrierCall.luaC_barrier_ ⟨⟨2, GCSswpallgc, 0⟩⟩ ⟨4⟩ ⟨2⟩ ∧
    luaC_upvalbarrier ⟨⟨2, GCSswpallgc, 0⟩⟩ ⟨⟨1, ⟨2⟩⟩, 0⟩ =
      BarrierCall.luaC_upvalbarrier_ ⟨⟨2, GCSswpallgc, 0⟩⟩ ⟨⟨1, ⟨2⟩⟩, 0⟩ := by
  decide

/-- C12, amended: the four barrier macros decide by their own test alone, in
every collector state, whether `keepinvariant(g)` holds or not: `luaC_barrier`
and `luaC_barrierback` are `cast_void(0)` if and only if `v` is not
collectable, `p` is not black or the object of `v` is not white,
`luaC_objbarrier` if and only if `p` is not black or `o` is not white,
`luaC_upvalbarrier` if and only if the value is not collectable or the upvalue
is open; otherwise the barrier function is invoked, so two thread states `L`
and `M` with any two collector states get the same decision. -/
theorem barrier_macros_ignore_gcstate (L M : lua_State)
    (p o : GCObject) (v : TValue) (uv : UpVal) :
    (luaC_barrier L p v = BarrierCall.cast_void0 ↔ ¬ blackToWhite p v) ∧
    (luaC_barrier L p v ≠ BarrierCall.cast_void0 ↔
      luaC_barrier L p v = BarrierCall.luaC_barrier_ L (obj2gco p) v.gcvalue) ∧
    (luaC_barrierback L p v = BarrierCall.cast_void0 ↔ ¬ blackToWhite p v) ∧
    (luaC_barrierback L p v ≠ BarrierCall.cast_void0 ↔
      luaC_barrierback L p v = BarrierCall.luaC_barrierback_ L p) ∧
    (luaC_objbarrier L p o = BarrierCall.cast_void0 ↔
      ¬ (isblack p ≠ 0 ∧ iswhite o ≠ 0)) ∧
    (luaC_objbarrier L p o ≠ BarrierCall.cast_void0 ↔
      luaC_objbarrier L p o = BarrierCall.luaC_barrier_ L (obj2gco p) (obj2gco o)) ∧
    (luaC_upvalbarrier L uv = BarrierCall.cast_void0 ↔
      (uv.v.iscollectable = 0 ∨ uv.upisopen ≠ 0)) ∧
    (luaC_upvalbarrier L uv ≠ BarrierCall.cast_void0 ↔
      luaC_upvalbarrier L uv = BarrierCall.luaC_upvalbarrier_ L uv) ∧
    (luaC_barrier L p v = BarrierCall.cast_void0 ↔
      luaC_barrier M p v = BarrierCall.cast_void0) ∧
    (luaC_barrierback L p v = BarrierCall.cast_void0 ↔
      luaC_barrierback M p v = BarrierCall.cast_void0) ∧
    (luaC_objbarrier L p o = BarrierCall.cast_void0 ↔
      luaC_objbarrier M p o = BarrierCall.cast_void0) ∧
    (luaC_upvalbarrier L uv = BarrierCall.cast_void0 ↔
      luaC_upvalbarrier M uv = BarrierCall.cast_void0) := by
  unfold luaC_barrier luaC_barrierback luaC_objbarrier luaC_upvalbarrier
    blackToWhite c_and c_not
  by_cases h1 : v.iscollectable = 0 <;> by_cases h2 : isblack p = 0 <;>
    by_cases h3 : iswhite v.gcvalue = 0 <;> by_cases h4 : iswhite o = 0 <;>
    by_cases h5 : uv.v.iscollectable = 0 <;> by_cases h6 : uv.upisopen = 0 <;>
    simp [h1, h2, h3, h4, h5, h6]

/-- C13, counterexample: for a closed upvalue whose value is a black (not
white) collectable object, `luaC_upvalbarrier` invokes `luaC_upvalbarrier_`. -/
theorem upvalbarrier_on_black_value :
    iswhite (UpVal.mk ⟨1, ⟨4⟩⟩ 0).v.gcvalue = 0 ∧
    luaC_upvalbarrier ⟨⟨1, GCSpropagate, 0⟩⟩ ⟨⟨1, ⟨4⟩⟩, 0⟩ =
      BarrierCall.luaC_upvalbarrier_ ⟨⟨1, GCSpropagate, 0⟩⟩ ⟨⟨1, ⟨4⟩⟩, 0⟩ ∧
    ¬ (luaC_upvalbarrier ⟨⟨1, GCSpropagate, 0⟩⟩ ⟨⟨1, ⟨4⟩⟩, 0⟩ =
        BarrierCall.luaC_upvalbarrier_ ⟨⟨1, GCSpropagate, 0⟩⟩ ⟨⟨1, ⟨4⟩⟩, 0⟩ ↔
      ((UpVal.mk ⟨1, ⟨4⟩⟩ 0).upisopen = 0 ∧
        (UpVal.mk ⟨1, ⟨4⟩⟩ 0).v.iscollectable ≠ 0 ∧
        iswhite (UpVal.mk ⟨1, ⟨4⟩⟩ 0).v.gcvalue ≠ 0)) := by
  decide

/-- C13, amended: `luaC_upvalbarrier(L, uv)` invokes `luaC_upvalbarrier_`
exactly when the upvalue is closed (not open) and the value it refers to is
collectable, whatever the colour of that value (so also when it is white); for
an open upvalue or a non-collectable value it is `cast_void(0)`. -/
theorem upvalbarrier_iff_closed_collectable (L : lua_State) (uv : UpVal) :
    (luaC_upvalbarrier L uv = BarrierCall.luaC_upvalbarrier_ L uv ↔
      (uv.upisopen = 0 ∧ uv.v.iscollectable ≠ 0)) ∧
    (luaC_upvalbarrier L uv = BarrierCall.cast_void0 ↔
      (uv.upisopen ≠ 0 ∨ uv.v.iscollectable = 0)) ∧
    (∀ m : Nat, luaC_upvalbarrier L ⟨⟨uv.v.iscollectable, ⟨m⟩⟩, uv.upisopen⟩ =
        BarrierCall.cast_void0 ↔ luaC_upvalbarrier L uv = BarrierCall.cast_void0) := by
  unfold luaC_upvalbarrier c_and c_not
  by_cases h5 : uv.v.iscollectable = 0 <;> by_cases h6 : uv.upisopen = 0 <;>
    simp [h5, h6]

/-! ## `luaC_condGC` -/

/-- C14: with the test hook `condchangemem` doing nothing, `luaC_condGC(L, pre,
pos)` runs `pre`, then one `luaC_step`, then `pos` when `GCdebt > 0` and runs
nothing when the debt is zero or negative; `luaC_checkGC` is the same with
empty `pre` and `pos`; on a state that records the statements run, the three
are recorded, in this order, if and only if the debt is strictly positive. -/
theorem condGC_runs_iff_positive_debt {σ : Type} (luaC_step : σ → σ)
    (L : σ → lua_State) (pre pos : σ → σ) (s : σ) (t : Traced) :
    (0 < (G (L s)).GCdebt →
      luaC_condGC luaC_step (fun _ _ r => r) L pre pos s = pos (luaC_step (pre s)) ∧
      luaC_checkGC luaC_step (fun _ _ r => r) L s = luaC_step s) ∧
    ((G (L s)).GCdebt ≤ 0 →
      luaC_condGC luaC_step (fun _ _ r => r) L pre pos s = s ∧
      luaC_checkGC luaC_step (fun _ _ r => r) L s = s) ∧
    ((luaC_condGC (Traced.record GCEvent.luaC_step) (fun _ _ r => r) Traced.L
        (Traced.record GCEvent.pre) (Traced.record GCEvent.pos) t).log =
        t.log ++ [GCEvent.pre, GCEvent.luaC_step, GCEvent.pos] ↔
      0 < (G t.L).GCdebt) ∧
    ((luaC_condGC (Traced.record GCEvent.luaC_step) (fun _ _ r => r) Traced.L
        (Traced.record GCEvent.pre) (Traced.record GCEvent.pos) t).log = t.log ↔
      (G t.L).GCdebt ≤ 0) := by
  refine ⟨fun h => ?_, fun h => ?_, ?_, ?_⟩
  · simp [luaC_condGC, luaC_checkGC, h]
  · simp [luaC_condGC, luaC_checkGC, not_lt.mpr h]
  · by_cases h : 0 < (G t.L).GCdebt
    · simp [luaC_condGC, Traced.record, h]
    · simp [luaC_condGC, h]
  · by_cases h : 0 < (G t.L).GCdebt
    · simp [luaC_condGC, Traced.record, h]
    · simp [luaC_condGC, h, not_lt.mp h]

/-! ## Colour bits and the finalization bit -/

set_option maxRecDepth 100000 in
/-- Colour predicates of a byte after setting or clearing `FINALIZEDBIT`, and
their dependence on the low three bits only. -/
theorem colour_frame_byte :
    ∀ m, m < 256 →
      (iswhite ⟨m⟩ = iswhite ⟨m % 8⟩ ∧ isblack ⟨m⟩ = isblack ⟨m % 8⟩ ∧
        isgray ⟨m⟩ = isgray ⟨m % 8⟩ ∧
        tofinalize ⟨m⟩ = tofinalize ⟨testbits m (bitmask FINALIZEDBIT)⟩) ∧
      (iswhite ⟨l_setbit m FINALIZEDBIT⟩ = iswhite ⟨m⟩ ∧
        isblack ⟨l_setbit m FINALIZEDBIT⟩ = isblack ⟨m⟩ ∧
        isgray ⟨l_setbit m FINALIZEDBIT⟩ = isgray ⟨m⟩) ∧
      (iswhite ⟨resetbit m FINALIZEDBIT⟩ = iswhite ⟨m⟩ ∧
        isblack ⟨resetbit m FINALIZEDBIT⟩ = isblack ⟨m⟩ ∧
        isgray ⟨resetbit m FINALIZEDBIT⟩ = isgray ⟨m⟩) ∧
      (tofinalize (gray2black ⟨m⟩) = tofinalize ⟨m⟩ ∧
        tofinalize (changewhite ⟨m⟩) = tofinalize ⟨m⟩) := by
  decide

set_option maxRecDepth 100000 in
/-- For a `currentwhite` made of white bits only, `isdeadm` reads the low
three bits of the byte only and ignores `FINALIZEDBIT`. -/
theorem isdeadm_frame_byte :
    ∀ cw, cw < 4 → ∀ m, m < 256 →
      isdeadm (cw ^^^ WHITEBITS) m = isdeadm (cw ^^^ WHITEBITS) (m % 8) ∧
      isdeadm (cw ^^^ WHITEBITS) (l_setbit m FINALIZEDBIT) =
        isdeadm (cw ^^^ WHITEBITS) m ∧
      isdeadm (cw ^^^ WHITEBITS) (resetbit m FINALIZEDBIT) =
        isdeadm (cw ^^^ WHITEBITS) m := by
  decide

/-- C15: colour and finalization mark are independent. For every marked byte,
`iswhite`, `isblack`, `isgray` and (for a `currentwhite` made of white bits
only) `isdead` depend only on bits 0-2 of `marked` and `tofinalize` only on
bit 3; setting or clearing `FINALIZEDBIT` with `l_setbit` / `resetbit` changes
no colour predicate and not `isdead`; `gray2black` and `changewhite` do not
change `tofinalize`. -/
theorem colour_and_finalized_independent (g : global_State) (x : GCObject)
    (hx : isByte x.marked) (hg : g.currentwhite ≤ WHITEBITS) :
    (iswhite x = iswhite ⟨x.marked % 8⟩ ∧ isblack x = isblack ⟨x.marked % 8⟩ ∧
      isgray x = isgray ⟨x.marked % 8⟩ ∧ isdead g x = isdead g ⟨x.marked % 8⟩ ∧
      tofinalize x = tofinalize ⟨testbits x.marked (bitmask FINALIZEDBIT)⟩) ∧
    (iswhite ⟨l_setbit x.marked FINALIZEDBIT⟩ = iswhite x ∧
      isblack ⟨l_setbit x.marked FINALIZEDBIT⟩ = isblack x ∧
      isgray ⟨l_setbit x.marked FINALIZEDBIT⟩ = isgray x ∧
      isdead g ⟨l_setbit x.marked FINALIZEDBIT⟩ = isdead g x) ∧
    (iswhite ⟨resetbit x.marked FINALIZEDBIT⟩ = iswhite x ∧
      isblack ⟨resetbit x.marked FINALIZEDBIT⟩ = isblack x ∧
      isgray ⟨resetbit x.marked FINALIZEDBIT⟩ = isgray x ∧
      isdead g ⟨resetbit x.marked FINALIZEDBIT⟩ = isdead g x) ∧
    (tofinalize (gray2black x) = tofinalize x ∧
      tofinalize (changewhite x) = tofinalize x) := by
  obtain ⟨cw, st, debt⟩ := g
  obtain ⟨m⟩ := x
  have hcw : cw < 4 := Nat.lt_succ_of_le hg
  obtain ⟨⟨a1, a2, a3, a4⟩, ⟨b1, b2, b3⟩, ⟨c1, c2, c3⟩, d1, d2⟩ :=
    colour_frame_byte m hx
  obtain ⟨e1, e2, e3⟩ := isdeadm_frame_byte cw hcw m hx
  exact ⟨⟨a1, a2, a3, e1, a4⟩, ⟨b1, b2, b3, e2⟩, ⟨c1, c2, c3, e3⟩, d1, d2⟩

/-- Witness of C15 at `currentwhite = 1` and the white byte `marked = 1`:
marking it for finalization gives `9`, still white and still not dead. -/
theorem colour_and_finalized_independent_witness :
    isByte 1 ∧ (1 : Nat) ≤ WHITEBITS ∧ l_setbit 1 FINALIZEDBIT = 9 ∧
    iswhite ⟨l_setbit 1 FINALIZEDBIT⟩ = iswhite ⟨1⟩ ∧
    isdead ⟨1, 0, 0⟩ ⟨l_setbit 1 FINALIZEDBIT⟩ = isdead ⟨1, 0, 0⟩ ⟨1⟩ ∧
    tofinalize (changewhite ⟨9⟩) = tofinalize ⟨9⟩ :=
  ⟨by decide, by decide, by decide,
    (colour_and_finalized_independent ⟨1, 0, 0⟩ ⟨1⟩ (by decide) (by decide)).2.1.1,
    (colour_and_finalized_independent ⟨1, 0, 0⟩ ⟨1⟩ (by decide) (by decide)).2.1.2.2.2,
    (colour_and_finalized_independent ⟨1, 0, 0⟩ ⟨9⟩ (by decide) (by decide)).2.2.2.2⟩

/-- C16: when `currentwhite` is both white bits (`WHITEBITS`), `otherwhite(g)`
is `0` and `isdead(g, v)` holds for every object `v`, whatever its marked
byte. -/
theorem all_dead_when_both_whites (g : global_State) (v : GCObject)
    (hg : g.currentwhite = WHITEBITS) :
    otherwhite g = 0 ∧ isdead g v ≠ 0 ∧ isdead g v = 1 := by
  have how : otherwhite g = 0 := by
    unfold otherwhite
    rw [hg]
    exact Nat.xor_self _
  refine ⟨how, ?_, ?_⟩ <;> simp [isdead, isdeadm, c_not, how]

/-- Witness of C16 on a black, finalization-marked object (`marked = 12`). -/
theorem all_dead_when_both_whites_witness :
    (global_State.mk 3 GCSpause 0).currentwhite = WHITEBITS ∧
    otherwhite ⟨3, GCSpause, 0⟩ = 0 ∧ isdead ⟨3, GCSpause, 0⟩ ⟨12⟩ = 1 :=
  ⟨by decide,
    (all_dead_when_both_whites ⟨3, GCSpause, 0⟩ ⟨12⟩ (by decide)).1,
    (all_dead_when_both_whites ⟨3, GCSpause, 0⟩ ⟨12⟩ (by decide)).2.2⟩

/-! ## `changewhite` -/

set_option maxRecDepth 100000 in
/-- The effect of `changewhite` on every byte, for both single shades of
`currentwhite`. -/
theorem changewhite_byte :
    ∀ m, m < 256 →
      changewhite (changewhite ⟨m⟩) = ⟨m⟩ ∧ (changewhite ⟨m⟩).marked < 256 ∧
      (testbits m WHITEBITS = bitmask WHITE0BIT →
        testbits (changewhite ⟨m⟩).marked WHITEBITS = bitmask WHITE1BIT) ∧
      (testbits m WHITEBITS = bitmask WHITE1BIT →
        testbits (changewhite ⟨m⟩).marked WHITEBITS = bitmask WHITE0BIT) ∧
      isdeadm (bitmask WHITE0BIT ^^^ WHITEBITS) (changewhite ⟨m⟩).marked =
        c_not (isdeadm (bitmask WHITE0BIT ^^^ WHITEBITS) m) ∧
      isdeadm (bitmask WHITE1BIT ^^^ WHITEBITS) (changewhite ⟨m⟩).marked =
        c_not (isdeadm (bitmask WHITE1BIT ^^^ WHITEBITS) m) ∧
      (∀ b, b < 8 → b ≠ WHITE0BIT → b ≠ WHITE1BIT →
        testbit (changewhite ⟨m⟩).marked b = testbit m b) := by
  decide

/-- C17: `changewhite` swaps the two white shades and nothing else. For every
marked byte, applying it twice restores the byte and the bits other than the
two white bits are unchanged; an object with exactly one white bit becomes
white with exactly the other white bit; for a single-shade `currentwhite`,
`isdead(g, x)` after `changewhite` is the negation of `isdead(g, x)` before. -/
theorem changewhite_swaps_shades (g : global_State) (x : GCObject)
    (hx : isByte x.marked) (hg : singleWhite g) :
    changewhite (changewhite x) = x ∧ isByte (changewhite x).marked ∧
    (∀ b, b < 8 → b ≠ WHITE0BIT → b ≠ WHITE1BIT →
      testbit (changewhite x).marked b = testbit x.marked b) ∧
    (testbits x.marked WHITEBITS = bitmask WHITE0BIT →
      testbits (changewhite x).marked WHITEBITS = bitmask WHITE1BIT ∧
      iswhite (changewhite x) ≠ 0) ∧
    (testbits x.marked WHITEBITS = bitmask WHITE1BIT →
      testbits (changewhite x).marked WHITEBITS = bitmask WHITE0BIT ∧
      iswhite (changewhite x) ≠ 0) ∧
    isdead g (changewhite x) = c_not (isdead g x) ∧
    (isdead g (changewhite x) ≠ 0 ↔ isdead g x = 0) := by
  obtain ⟨cw, st, debt⟩ := g
  obtain ⟨m⟩ := x
  obtain ⟨h1, h2, h3, h4, h5, h6, h7⟩ := changewhite_byte m hx
  have hd : isdead ⟨cw, st, debt⟩ (changewhite ⟨m⟩) =
      c_not (isdead ⟨cw, st, debt⟩ ⟨m⟩) := by
    simp only [singleWhite] at hg
    rcases hg with e | e <;> subst e
    · exact h5
    · exact h6
  refine ⟨h1, h2, h7, fun h => ⟨h3 h, ?_⟩, fun h => ⟨h4 h, ?_⟩, hd, ?_⟩
  · unfold iswhite
    rw [h3 h]
    decide
  · unfold iswhite
    rw [h4 h]
    decide
  · rw [hd]
    unfold c_not
    split_ifs with h <;> simp [h]

/-- Witness of C17 at `currentwhite = 1` and the current-white,
finalization-marked byte `marked = 9`, which becomes the dead byte `10`. -/
theorem changewhite_swaps_shades_witness :
    isByte 9 ∧ singleWhite ⟨1, 0, 0⟩ ∧ changewhite ⟨9⟩ = ⟨10⟩ ∧
    changewhite (changewhite ⟨9⟩) = ⟨9⟩ ∧
    isdead ⟨1, 0, 0⟩ (changewhite ⟨9⟩) = c_not (isdead ⟨1, 0, 0⟩ ⟨9⟩) :=
  ⟨by decide, Or.inl rfl, by decide,
    (changewhite_swaps_shades ⟨1, 0, 0⟩ ⟨9⟩ (by decide) (Or.inl rfl)).1,
    (changewhite_swaps_shades ⟨1, 0, 0⟩ ⟨9⟩ (by decide) (Or.inl rfl)).2.2.2.2.2.1⟩

/-! ## Bit helpers on a byte -/

/-- The complemented mask truncated to a byte. -/
theorem cast_byte_int_compl (m : Nat) :
    cast_byte_int (~~~(m : Int)) = 255 - m % 256 := by
  have h : ~~~(m : Int) = -(m : Int) - 1 := by
    show Int.negSucc m = _
    rw [Int.negSucc_eq]; omega
  unfold cast_byte_int
  rw [h]
  omega

/-- Clearing the bits of a mask after setting them is clearing them. -/
theorem resetbits_setbits (x m : Nat) : resetbits (setbits x m) m = resetbits x m := by
  unfold resetbits setbits cast_byte
  rw [cast_byte_int_compl]
  have h2 : 255 - m % 256 = 2 ^ 8 - (m % 2 ^ 8 + 1) := by norm_num; omega
  have hlt : m % 2 ^ 8 < 2 ^ 8 := Nat.mod_lt _ (by norm_num)
  have h256 : (256 : Nat) = 2 ^ 8 := by norm_num
  congr 1
  apply Nat.eq_of_testBit_eq
  intro i
  rw [h2, h256]
  simp only [Nat.testBit_and, Nat.testBit_two_pow_sub_succ hlt, Nat.testBit_mod_two_pow,
    Nat.testBit_or]
  cases x.testBit i <;> cases m.testBit i <;> by_cases h : i < 8 <;> simp [h]

set_option maxRecDepth 1000000 in
/-- The bit `b` of a byte after `l_setbit` and after `resetbit`. -/
theorem bit_helpers_same :
    ∀ b, b < 8 → ∀ x, x < 256 →
      (testbit (l_setbit x b) b ≠ 0 ∧ testbit (resetbit x b) b = 0 ∧
        l_setbit x b < 256 ∧ resetbit x b < 256) := by
  decide

set_option maxRecDepth 1000000 in
/-- The bits other than `b` of a byte after `l_setbit` and after `resetbit`. -/
theorem bit_helpers_other :
    ∀ b, b < 8 → ∀ c, c < 8 → ∀ x, x < 256 → c ≠ b →
      (testbit (l_setbit x b) c = testbit x c ∧
        testbit (resetbit x b) c = testbit x c) := by
  decide

/-- C18: for every byte `x` and bit index `b` in `0..7`, `testbit` is non-zero
after `l_setbit(x, b)` and zero after `resetbit(x, b)`; both leave every other
bit unchanged and keep `x` within `0..255` (the complemented mask is truncated
to a byte); for every mask `m`, `resetbits` after `setbits` with the same mask
equals `resetbits` alone. -/
theorem bit_helpers_spec (x b : Nat) (hx : isByte x) (hb : b < 8) :
    testbit (l_setbit x b) b ≠ 0 ∧ testbit (resetbit x b) b = 0 ∧
    (∀ c, c < 8 → c ≠ b →
      testbit (l_setbit x b) c = testbit x c ∧
      testbit (resetbit x b) c = testbit x c) ∧
    isByte (l_setbit x b) ∧ isByte (resetbit x b) ∧
    (∀ m : Nat, isByte (cast_byte_int (~~~(m : Int))) ∧ isByte (setbits x m) ∧
      isByte (resetbits x m) ∧ resetbits (setbits x m) m = resetbits x m) := by
  obtain ⟨h1, h2, h3, h4⟩ := bit_helpers_same b hb x hx
  refine ⟨h1, h2, fun c hc hcb => bit_helpers_other b hb c hc x hx hcb, h3, h4, ?_⟩
  intro m
  refine ⟨?_, ?_, ?_, resetbits_setbits x m⟩
  · rw [cast_byte_int_compl]
    unfold isByte
    omega
  · exact Nat.mod_lt _ (by norm_num)
  · exact Nat.mod_lt _ (by norm_num)

/-- Witness of C18 at the byte `255` and bit `7`: clearing gives `127`. -/
theorem bit_helpers_spec_witness :
    isByte 255 ∧ (7 : Nat) < 8 ∧ resetbit 255 7 = 127 ∧ l_setbit 127 7 = 255 ∧
    testbit (resetbit 255 7) 7 = 0 ∧
    resetbits (setbits 255 129) 129 = resetbits 255 129 :=
  ⟨by decide, by decide, by decide, by decide,
    (bit_helpers_spec 255 7 (by decide) (by decide)).2.1,
    ((bit_helpers_spec 255 7 (by decide) (by decide)).2.2.2.2.2 129).2.2.2⟩

/-! ## `setoah` and `getoah` -/

/-- The operator `c_band` is the bitwise and of the integers. -/
theorem c_band_eq_land (a b : Int) : c_band a b = Int.land a b := by
  have ldiff_eq : ∀ m n : Nat, Nat.ldiff m n = m ^^^ (m &&& n) := by
    intro m n
    apply Nat.eq_of_testBit_eq
    intro i
    rw [Nat.testBit_ldiff, Nat.testBit_xor, Nat.testBit_and]
    cases m.testBit i <;> cases n.testBit i <;> rfl
  cases a <;> cases b <;> simp [c_band, Int.land, ldiff_eq]

/-- The operator `c_bor` is the bitwise or of the integers. -/
theorem c_bor_eq_lor (a b : Int) : c_bor a b = Int.lor a b := by
  have ldiff_eq : ∀ m n : Nat, Nat.ldiff m n = m ^^^ (m &&& n) := by
    intro m n
    apply Nat.eq_of_testBit_eq
    intro i
    rw [Nat.testBit_ldiff, Nat.testBit_xor, Nat.testBit_and]
    cases m.testBit i <;> cases n.testBit i <;> rfl
  cases a <;> cases b <;> simp [c_bor, Int.lor, ldiff_eq]

/-- The value `setoah` stores, on natural numbers. -/
theorem setoah_eq (st v : Nat) :
    setoah st v = ((st ^^^ (st &&& 1)) ||| v) % 65536 := by
  unfold setoah cast_ushort CIST_OAH
  have h : ~~~(((1 <<< 0 : Nat)) : Int) = Int.negSucc 1 := rfl
  rw [h]
  show (((((st ^^^ (st &&& 1)) ||| v) : Nat) : Int) % 65536).toNat = _
  omega

/-- The bits of the value `setoah` stores: bit 0 is `v`, the others are those
of `st`. -/
theorem setoah_testBit (st v : Nat) (hst : st < 65536) (hv : v < 2) (i : Nat) :
    (setoah st v).testBit i = if i = 0 then v.testBit 0 else st.testBit i := by
  rw [setoah_eq]
  have h16 : (65536 : Nat) = 2 ^ 16 := by norm_num
  rw [h16, Nat.testBit_mod_two_pow, Nat.testBit_or, Nat.testBit_xor, Nat.testBit_and]
  by_cases hi : i = 0
  · subst hi
    simp
  · have h1 : (1 : Nat).testBit i = false := by
      rw [← Bool.not_eq_true, Nat.testBit_one_eq_true_iff_self_eq_zero]; exact hi
    have hvi : v.testBit i = false := by
      apply Nat.testBit_lt_two_pow
      calc v < 2 := hv
        _ = 2 ^ 1 := by norm_num
        _ ≤ 2 ^ i := Nat.pow_le_pow_right (by norm_num) (Nat.pos_of_ne_zero hi)
    simp only [hi, if_false, h1, hvi, Bool.and_false, Bool.xor_false, Bool.or_false]
    by_cases h : i < 16
    · simp [h]
    · simp only [h, decide_False, Bool.false_and]
      symm
      apply Nat.testBit_lt_two_pow
      calc st < 2 ^ 16 := by rw [← h16]; exact hst
        _ ≤ 2 ^ i := Nat.pow_le_pow_right (by norm_num) (by omega)

/-- A number below `2` has its bit 0 only. -/
theorem testBit_of_lt_two (v : Nat) (hv : v < 2) (i : Nat) :
    v.testBit i = (decide (i = 0) && v.testBit 0) := by
  by_cases hi : i = 0
  · subst hi; simp
  · have hvi : v.testBit i = false := by
      apply Nat.testBit_lt_two_pow
      calc v < 2 := hv
        _ = 2 ^ 1 := by norm_num
        _ ≤ 2 ^ i := Nat.pow_le_pow_right (by norm_num) (Nat.pos_of_ne_zero hi)
    simp [hi, hvi]

/-- C19: for every 16-bit `callstatus` `st` and every `v` in `{0, 1}`, after
`setoah(st, v)` the value `getoah(st)` is `v` and every other bit of `st`
(`CIST_LUA` through `CIST_FIN`, and the bits above) is unchanged; `setoah` with
the value `getoah(st)` already has leaves `st` unchanged. -/
theorem setoah_getoah_spec (st v : Nat) (hst : isUShort st) (hv : v = 0 ∨ v = 1) :
    getoah (setoah st v) = v ∧
    (∀ b, 1 ≤ b → b < 16 → setoah st v &&& (1 <<< b) = st &&& (1 <<< b)) ∧
    (∀ f ∈ [CIST_LUA, CIST_HOOKED, CIST_FRESH, CIST_YPCALL, CIST_TAIL,
        CIST_HOOKYIELD, CIST_LEQ, CIST_FIN],
      setoah st v &&& f = st &&& f) ∧
    setoah st (getoah st) = st ∧ isUShort (setoah st v) := by
  have hv2 : v < 2 := by omega
  have hother : ∀ b, 1 ≤ b → setoah st v &&& (1 <<< b) = st &&& (1 <<< b) := by
    intro b hb
    apply Nat.eq_of_testBit_eq
    intro i
    rw [Nat.testBit_and, Nat.testBit_and, setoah_testBit st v hst hv2, Nat.one_shiftLeft,
      Nat.testBit_two_pow]
    by_cases hi : i = 0
    · subst hi
      have : ¬ b = 0 := by omega
      simp [this]
    · simp [hi]
  refine ⟨?_, fun b hb _ => hother b hb, ?_, ?_, ?_⟩
  · show setoah st v &&& 1 = v
    apply Nat.eq_of_testBit_eq
    intro i
    rw [Nat.testBit_and, setoah_testBit st v hst hv2, testBit_of_lt_two v hv2 i,
      testBit_of_lt_two 1 (by norm_num) i]
    by_cases hi : i = 0 <;> simp [hi]
  · intro f hf
    simp only [List.mem_cons, List.mem_singleton, List.not_mem_nil, or_false] at hf
    rcases hf with h | h | h | h | h | h | h | h <;> subst h <;>
      exact hother _ (by norm_num)
  · have hg : getoah st < 2 := by
      have : getoah st ≤ 1 := Nat.and_le_right
      omega
    apply Nat.eq_of_testBit_eq
    intro i
    rw [setoah_testBit st _ hst hg]
    by_cases hi : i = 0
    · subst hi
      show (st &&& 1).testBit 0 = _
      rw [Nat.testBit_and]
      simp
    · simp [hi]
  · rw [setoah_eq]
    exact Nat.mod_lt _ (by norm_num)

/-- Witness of C19 at the call status `511` (all nine flags) and `v = 0`: the
result is `510`. -/
theorem setoah_getoah_spec_witness :
    isUShort 511 ∧ setoah 511 0 = 510 ∧ getoah (setoah 511 0) = 0 ∧
    setoah 511 (getoah 511) = 511 :=
  ⟨by decide, by decide,
    (setoah_getoah_spec 511 0 (by decide) (Or.inl rfl)).1,
    (setoah_getoah_spec 511 0 (by decide) (Or.inl rfl)).2.2.2.1⟩

end Luar
